/-
Verification of the statistics aggregation engine of the
github-data-visualizer repository: a shallow embedding of
`src/analysis/pr_analyzer.py`, `src/analysis/multi_repo_analyzer.py`,
`src/utils/data_utils.py` and `src/utils/date_utils.py`, followed by
theorems about the embedded definitions.

Modelling conventions:
* Python `dict`s (which preserve insertion order) are association lists;
  `d[k] = v` is `setAssoc`, and the grouping / counting loops use
  order-preserving update helpers that append new keys at the end.
* Python numbers: counts are `Nat`, signed second deltas are `Int`, and
  float arithmetic (averages, rates, hour deltas) is exact `Rat`.  All
  float expressions in the source are sums, differences, products and
  quotients of integer-valued data, so `Rat` reproduces the formulas;
  we do not model IEEE rounding.
* `datetime.strptime` either yields a parsed timestamp or raises; a raw
  date string is embedded as `Option Timestamp` where `none` stands for
  a missing key or an unparsable string (both raise in the source).
* Raising an exception is `Except.error`; `Except String` is threaded
  exactly where the source can raise.
* Python `sorted(..., key=k, reverse=True)` (Timsort, stable, and stable
  under `reverse=True`) is `List.insertionSort` with the total preorder
  "key is greater or equal", which is the unique stable sort.
* Python `max(xs, key=k)` / `min(xs, key=k)` return the first maximal /
  minimal element; embedded as `pickMax` / `pickMin` folds.
-/
import Mathlib

/-! ## Timestamps (`src/utils/date_utils.py`)

`parse_github_date` produces a `datetime`; the analysis only ever uses
the calendar month (`strftime "%Y-%m"`) and timestamp subtraction
(`total_seconds`), which we reproduce with a proleptic Gregorian day
count, exactly as Python `datetime` arithmetic does. -/

structure Timestamp where
  year : Nat
  month : Nat
  day : Nat
  hour : Nat
  minute : Nat
  second : Nat
deriving DecidableEq, Repr

def isLeap (y : Nat) : Bool :=
  (y % 4 == 0 && y % 100 != 0) || (y % 400 == 0)

/-- Days in the months strictly before month `m` (1-based) of a common year. -/
def daysBeforeMonth (m : Nat) : Nat :=
  [0, 31, 59, 90, 120, 151, 181, 212, 243, 273, 304, 334].getD (m - 1) 0

/-- Days strictly before January 1 of year `y` in the proleptic Gregorian calendar. -/
def daysBeforeYear (y : Nat) : Nat :=
  (y - 1) * 365 + (y - 1) / 4 - (y - 1) / 100 + (y - 1) / 400

def Timestamp.toDayNumber (t : Timestamp) : Nat :=
  daysBeforeYear t.year + daysBeforeMonth t.month
    + (if isLeap t.year && decide (2 < t.month) then 1 else 0) + (t.day - 1)

/-- Seconds since the calendar origin; differences of this value agree with
`(d2 - d1).total_seconds()` on `datetime` values. -/
def Timestamp.toSeconds (t : Timestamp) : Nat :=
  t.toDayNumber * 86400 + t.hour * 3600 + t.minute * 60 + t.second

/-- The `strftime("%Y-%m")` bucketing key, kept as a pair (year, month);
for four-digit years the string keys sort exactly like these pairs. -/
abbrev MonthKey := Nat × Nat

def Timestamp.monthKey (t : Timestamp) : MonthKey := (t.year, t.month)

/-! ## PR records

One pull-request mapping as consumed by the analyzers.  Optional keys of
the Python dict are `Option` fields; integer count fields default to `0`
when absent (`pr.get("comments", 0)` etc.), so they are plain `Nat`.
`user_login` is `pr.get("user", {}).get("login", "unknown")` before the
`"unknown"` default is applied. -/

structure PR where
  number : Nat
  state : Option String
  created_at : Option Timestamp
  closed_at : Option Timestamp
  merged_at : Option Timestamp
  comments : Nat
  review_comments : Nat
  commits : Nat
  additions : Nat
  deletions : Nat
  user_login : Option String
deriving DecidableEq, Repr

/-! ## Ordered-dict and sorting helpers -/

/-- Python `d[k] = v` on an insertion-ordered dict: overwrite in place or
append a fresh key at the end. -/
def setAssoc {V : Type} (k : String) (v : V) : List (String × V) → List (String × V)
  | [] => [(k, v)]
  | (k', v') :: rest =>
    if k' = k then (k, v) :: rest else (k', v') :: setAssoc k v rest

/-- The `states[state] = states.get(state, 0) + 1` counting idiom. -/
def bumpAssoc (k : String) : List (String × Nat) → List (String × Nat)
  | [] => [(k, 1)]
  | (k', n) :: rest =>
    if k' = k then (k', n + 1) :: rest else (k', n) :: bumpAssoc k rest

/-- `grouped[month_key].append(item)` after ensuring the key exists. -/
def appendGrouped (k : MonthKey) (pr : PR) : List (MonthKey × List PR) → List (MonthKey × List PR)
  | [] => [(k, [pr])]
  | (k', l) :: rest =>
    if k' = k then (k', l ++ [pr]) :: rest else (k', l) :: appendGrouped k pr rest

/-- The total preorder "the key of the left element is ≥ the key of the
right one": sorting by it descending-stably is Python
`sorted(..., key=key, reverse=True)`. -/
def keyGe {α β : Type} (key : α → β) [LinearOrder β] (x y : α) : Prop :=
  key y ≤ key x

instance {α β : Type} (key : α → β) [LinearOrder β] : DecidableRel (keyGe key) :=
  fun x y => inferInstanceAs (Decidable (key y ≤ key x))

instance {α β : Type} (key : α → β) [LinearOrder β] : IsTotal α (keyGe key) :=
  ⟨fun a b => (le_total (key b) (key a)).imp id id⟩

instance {α β : Type} (key : α → β) [LinearOrder β] : IsTrans α (keyGe key) :=
  ⟨fun _ _ _ hab hbc => le_trans hbc hab⟩

/-- Python `sorted(xs, key=key, reverse=True)`: the stable descending sort. -/
def sortDescBy {α β : Type} (key : α → β) [LinearOrder β] (xs : List α) : List α :=
  List.insertionSort (keyGe key) xs

/-- Python `max(xs, key=key)` over `x :: xs`: first maximal element
(the accumulator is replaced only on a strictly greater key). -/
def pickMax {α β : Type} (key : α → β) [LinearOrder β] (x : α) (xs : List α) : α :=
  xs.foldl (fun best y => if key best < key y then y else best) x

/-- Python `min(xs, key=key)` over `x :: xs`: first minimal element. -/
def pickMin {α β : Type} (key : α → β) [LinearOrder β] (x : α) (xs : List α) : α :=
  xs.foldl (fun best y => if key y < key best then y else best) x

/-- Total version used where the source's `max()` argument is nonempty by
an enclosing guard. -/
def pickMaxD {α β : Type} (key : α → β) [LinearOrder β] (dflt : α) : List α → α
  | [] => dflt
  | x :: xs => pickMax key x xs

/-! ## `src/utils/data_utils.py` -/

/-- Loop body of `group_by_month`: iterates the records, parsing
`item["created_at"]` (raising on a missing or unparsable value) and
appending the record to its month bucket. -/
def group_by_month_aux (acc : List (MonthKey × List PR)) : List PR → Except String (List (MonthKey × List PR))
  | [] => Except.ok acc
  | pr :: rest =>
    match pr.created_at with
    | none => Except.error "unparsable created_at"
    | some t => group_by_month_aux (appendGrouped t.monthKey pr acc) rest

def group_by_month (prs : List PR) : Except String (List (MonthKey × List PR)) :=
  group_by_month_aux [] prs

structure MonthlyStat where
  count : Nat
  open_count : Nat
  closed_count : Nat
  merged_count : Nat
  avg_comments : Rat
  avg_reviews : Rat
deriving DecidableEq, Repr

/-- One bucket of `calculate_monthly_stats`. -/
def monthlyStatOf (items : List PR) : MonthlyStat :=
  { count := items.length
    open_count := (items.filter fun pr => pr.state == some "open").length
    closed_count := (items.filter fun pr => pr.state == some "closed").length
    merged_count := (items.filter fun pr => pr.merged_at.isSome).length
    avg_comments :=
      if items.isEmpty then 0 else ((items.map PR.comments).sum : Rat) / (items.length : Rat)
    avg_reviews :=
      if items.isEmpty then 0 else ((items.map PR.review_comments).sum : Rat) / (items.length : Rat) }

def calculate_monthly_stats (grouped : List (MonthKey × List PR)) : List (MonthKey × MonthlyStat) :=
  grouped.map fun e => (e.1, monthlyStatOf e.2)

/-! ## `PRAnalyzer._calculate_overall_stats` -/

structure OverallStats where
  total_prs : Nat
  state_distribution : List (String × Nat)
  merged_count : Nat
  closed_not_merged_count : Nat
  merge_rate : Rat
  avg_comments : Rat
  avg_review_comments : Rat
  avg_commits : Rat
  avg_additions : Rat
  avg_deletions : Rat
  total_changes : Nat
deriving DecidableEq, Repr

/-- `_calculate_overall_stats`; returns `none` for the `total_prs == 0`
early return of `{}`.  The Python guards `... if total_prs > 0 else 0`
are redundant inside the nonzero branch and `Rat` division by zero is `0`,
so the quotients below coincide with the guarded expressions. -/
def calculate_overall_stats (prs : List PR) : Option OverallStats :=
  if prs.length = 0 then none
  else
    let merged := (prs.filter fun pr => pr.merged_at.isSome).length
    some
      { total_prs := prs.length
        state_distribution := prs.foldl (fun acc pr => bumpAssoc (pr.state.getD "unknown") acc) []
        merged_count := merged
        closed_not_merged_count :=
          (prs.filter fun pr => pr.state == some "closed" && pr.merged_at.isNone).length
        merge_rate := ((merged : Rat) / (prs.length : Rat)) * 100
        avg_comments := ((prs.map PR.comments).sum : Rat) / (prs.length : Rat)
        avg_review_comments := ((prs.map PR.review_comments).sum : Rat) / (prs.length : Rat)
        avg_commits := ((prs.map PR.commits).sum : Rat) / (prs.length : Rat)
        avg_additions := ((prs.map PR.additions).sum : Rat) / (prs.length : Rat)
        avg_deletions := ((prs.map PR.deletions).sum : Rat) / (prs.length : Rat)
        total_changes := (prs.map PR.additions).sum + (prs.map PR.deletions).sum }

/-! ## `PRAnalyzer._calculate_trends` -/

structure PrCountTrend where
  slope : Rat
  direction : String
  change_rate : Rat
deriving DecidableEq, Repr

structure MonthlyAverages where
  avg_prs_per_month : Rat
  avg_merge_rate : Rat
  avg_comments_per_pr : Rat
deriving DecidableEq, Repr

structure PeakActivity where
  peak_month : MonthKey
  peak_count : Nat
deriving DecidableEq, Repr

structure TrendData where
  pr_count_trend : PrCountTrend
  monthly_averages : MonthlyAverages
  peak_activity : PeakActivity
deriving DecidableEq, Repr

/-- A trends dict is either the insufficient-data / no-data placeholder
`{"message": ...}` or the populated trend mapping. -/
inductive Trends where
  | message (s : String)
  | data (d : TrendData)
deriving DecidableEq, Repr

/-- Chronological order on month keys; `df.sort_index()` sorts the
month-keyed rows by the parsed `"YYYY-MM-01"` dates, i.e. by this order
(month keys within one grouping are distinct, so ties cannot arise). -/
def monthLe (a b : MonthKey) : Prop :=
  a.1 < b.1 ∨ (a.1 = b.1 ∧ a.2 ≤ b.2)

instance : DecidableRel monthLe :=
  fun a b => inferInstanceAs (Decidable (a.1 < b.1 ∨ (a.1 = b.1 ∧ a.2 ≤ b.2)))

instance : IsTotal MonthKey monthLe := by
  constructor
  intro a b
  unfold monthLe
  omega

instance : IsTrans MonthKey monthLe := by
  constructor
  intro a b c hab hbc
  unfold monthLe at hab hbc ⊢
  omega

def rowLe (x y : MonthKey × MonthlyStat) : Prop := monthLe x.1 y.1

instance : DecidableRel rowLe :=
  fun x y => inferInstanceAs (Decidable (monthLe x.1 y.1))

instance : IsTotal (MonthKey × MonthlyStat) rowLe :=
  ⟨fun a b => IsTotal.total (r := monthLe) a.1 b.1⟩

instance : IsTrans (MonthKey × MonthlyStat) rowLe :=
  ⟨fun _ _ _ hab hbc => Trans.trans (r := monthLe) hab hbc⟩

/-- `df.sort_index()` on the month-keyed frame. -/
def sortMonths (ms : List (MonthKey × MonthlyStat)) : List (MonthKey × MonthlyStat) :=
  List.insertionSort rowLe ms

/-- Fallback row for the `y[0]` / `y[-1]` / `idxmax` accesses, which the
`len < 2` guard keeps away from empty frames. -/
def dfltRow : MonthKey × MonthlyStat := ((0, 0), monthlyStatOf [])

/-- `_calculate_trends`. -/
def calculate_trends (monthly_stats : List (MonthKey × MonthlyStat)) : Trends :=
  if monthly_stats.length < 2 then Trends.message "Insufficient data for trend analysis"
  else
    let df := sortMonths monthly_stats
    let y0 : Nat := (df.headD dfltRow).2.count
    let yLast : Nat := (df.getLastD dfltRow).2.count
    let slope : Rat := ((yLast : Rat) - (y0 : Rat)) / (df.length : Rat)
    let counts := df.map fun e => e.2.count
    let peak := pickMaxD (fun e => e.2.count) dfltRow df
    Trends.data
      { pr_count_trend :=
          { slope := slope
            direction :=
              if slope > 0 then "increasing" else if slope < 0 then "decreasing" else "stable"
            change_rate := slope }
        monthly_averages :=
          { avg_prs_per_month := ((counts.sum : Rat)) / (df.length : Rat)
            avg_merge_rate :=
              if 0 < counts.sum then
                (((df.map fun e => e.2.merged_count).sum : Rat) / (counts.sum : Rat)) * 100
              else 0
            avg_comments_per_pr := (df.map fun e => e.2.avg_comments).sum / (df.length : Rat) }
        peak_activity := { peak_month := peak.1, peak_count := peak.2.count } }

/-! ## `PRAnalyzer._calculate_contributor_stats` -/

structure ContributorDetail where
  pr_count : Nat
  merged_count : Nat
  total_comments : Nat
  total_review_comments : Nat
  total_additions : Nat
  total_deletions : Nat
deriving DecidableEq, Repr

def zeroDetail : ContributorDetail := ⟨0, 0, 0, 0, 0, 0⟩

/-- The per-record contributor accumulation. -/
def addPR (pr : PR) (d : ContributorDetail) : ContributorDetail :=
  { pr_count := d.pr_count + 1
    merged_count := d.merged_count + (if pr.merged_at.isSome then 1 else 0)
    total_comments := d.total_comments + pr.comments
    total_review_comments := d.total_review_comments + pr.review_comments
    total_additions := d.total_additions + pr.additions
    total_deletions := d.total_deletions + pr.deletions }

/-- Insert-if-absent-then-increment on the contributors dict. -/
def updateContrib (k : String) (pr : PR) : List (String × ContributorDetail) → List (String × ContributorDetail)
  | [] => [(k, addPR pr zeroDetail)]
  | (k', d) :: rest =>
    if k' = k then (k', addPR pr d) :: rest else (k', d) :: updateContrib k pr rest

/-- `contributor_details` is absent in `_empty_analysis_result` but present
otherwise, hence the `Option`. -/
structure ContributorStats where
  total_contributors : Nat
  top_contributors : List (String × ContributorDetail)
  contributor_details : Option (List (String × ContributorDetail))
deriving DecidableEq, Repr

def calculate_contributor_stats (prs : List PR) : ContributorStats :=
  let contributors :=
    prs.foldl (fun acc pr => updateContrib (pr.user_login.getD "unknown") pr acc) []
  let sorted_contributors := sortDescBy (fun e => e.2.pr_count) contributors
  { total_contributors := contributors.length
    top_contributors := sorted_contributors.take 10
    contributor_details := some contributors }

/-! ## `PRAnalyzer._calculate_lifecycle_stats` -/

structure LifecycleRecord where
  pr_number : Nat
  created_at : Timestamp
  closed_at : Option Timestamp
  merged_at : Option Timestamp
  state : Option String
  is_merged : Bool
  time_to_close : Option Rat
  time_to_merge : Option Rat
deriving DecidableEq, Repr

/-- Hours between two parsed timestamps: `(b - a).total_seconds() / 3600`. -/
def hoursBetween (a b : Timestamp) : Rat :=
  (((b.toSeconds : Int) - (a.toSeconds : Int) : Int) : Rat) / 3600

/-- One iteration of the lifecycle loop; raises when `created_at` is
missing or unparsable. -/
def prToLifecycle (pr : PR) : Except String LifecycleRecord :=
  match pr.created_at with
  | none => Except.error "unparsable created_at"
  | some c =>
    Except.ok
      { pr_number := pr.number
        created_at := c
        closed_at := pr.closed_at
        merged_at := pr.merged_at
        state := pr.state
        is_merged := pr.merged_at.isSome
        time_to_close := pr.closed_at.map fun cl => hoursBetween c cl
        time_to_merge := pr.merged_at.map fun m => hoursBetween c m }

def lifecycleRecords : List PR → Except String (List LifecycleRecord)
  | [] => Except.ok []
  | pr :: rest =>
    match prToLifecycle pr with
    | Except.error e => Except.error e
    | Except.ok r =>
      match lifecycleRecords rest with
      | Except.error e => Except.error e
      | Except.ok rs => Except.ok (r :: rs)

/-- Python truthiness of `pr.get("time_to_close")`: the key must exist and
the float must be nonzero (`0.0` is falsy). -/
def truthyQ : Option Rat → Bool
  | none => false
  | some q => decide (q ≠ 0)

structure LifecycleStats where
  total_prs : Nat
  closed_prs : Nat
  merged_prs : Nat
  avg_time_to_close : Rat
  avg_time_to_merge : Rat
  lifecycle_details : List LifecycleRecord
deriving DecidableEq, Repr

def calculate_lifecycle_stats (prs : List PR) : Except String LifecycleStats :=
  match lifecycleRecords prs with
  | Except.error e => Except.error e
  | Except.ok recs =>
    let closedL := recs.filter fun r => truthyQ r.time_to_close
    let mergedL := recs.filter fun r => truthyQ r.time_to_merge
    Except.ok
      { total_prs := recs.length
        closed_prs := closedL.length
        merged_prs := mergedL.length
        avg_time_to_close :=
          if closedL.isEmpty then 0
          else (closedL.map fun r => r.time_to_close.getD 0).sum / (closedL.length : Rat)
        avg_time_to_merge :=
          if mergedL.isEmpty then 0
          else (mergedL.map fun r => r.time_to_merge.getD 0).sum / (mergedL.length : Rat)
        lifecycle_details := recs }

/-! ## `PRAnalyzer.analyze_pr_data` -/

/-- The `lifecycle_stats` value in an analysis dict: the empty-input
placeholder `{"total_prs": 0}` (which lacks the `avg_time_to_merge` key)
or the populated stats. -/
inductive LifecycleOut where
  | placeholder
  | full (s : LifecycleStats)
deriving DecidableEq, Repr

/-- An `AnalysisResult` dict.  The wall-clock `generated_at` field is not
modelled; `summary` is flattened into `total_prs`, `analysis_period` and
`months_analyzed`; `raw_data` into `prs_by_month` and `all_prs`. -/
structure AnalysisResult where
  total_prs : Nat
  analysis_period : String
  months_analyzed : Nat
  monthly_stats : List (MonthKey × MonthlyStat)
  overall_stats : Option OverallStats
  trends : Trends
  contributor_stats : ContributorStats
  lifecycle_stats : LifecycleOut
  prs_by_month : List (MonthKey × List PR)
  all_prs : List PR
deriving DecidableEq, Repr

/-- `_empty_analysis_result`. -/
def emptyAnalysisResult : AnalysisResult :=
  { total_prs := 0
    analysis_period := "2025"
    months_analyzed := 0
    monthly_stats := []
    overall_stats := none
    trends := Trends.message "No data available"
    contributor_stats :=
      { total_contributors := 0, top_contributors := [], contributor_details := none }
    lifecycle_stats := LifecycleOut.placeholder
    prs_by_month := []
    all_prs := [] }

/-- The mutable state of a `PRAnalyzer` instance.  `self.overall_stats` is
initialized to `{}` and never reassigned (the method binds a local of the
same name), so only `self.monthly_data` is carried. -/
structure PRState where
  monthly_data : List (MonthKey × List PR)
deriving DecidableEq, Repr

def freshPRState : PRState := { monthly_data := [] }

/-- `PRAnalyzer.analyze_pr_data` with the instance state threaded
explicitly: `self.monthly_data` is assigned after a successful grouping
and read back for `monthly_stats` and `raw_data.prs_by_month`. -/
def analyze_pr_dataS (s : PRState) (prs : List PR) : PRState × Except String AnalysisResult :=
  if prs.isEmpty then (s, Except.ok emptyAnalysisResult)
  else
    match group_by_month prs with
    | Except.error e => (s, Except.error e)
    | Except.ok grouped =>
      let s' : PRState := { monthly_data := grouped }
      let monthly := calculate_monthly_stats s'.monthly_data
      match calculate_lifecycle_stats prs with
      | Except.error e => (s', Except.error e)
      | Except.ok lifecycle =>
        (s',
         Except.ok
          { total_prs := prs.length
            analysis_period := "2025"
            months_analyzed := monthly.length
            monthly_stats := monthly
            overall_stats := calculate_overall_stats prs
            trends := calculate_trends monthly
            contributor_stats := calculate_contributor_stats prs
            lifecycle_stats := LifecycleOut.full lifecycle
            prs_by_month := s'.monthly_data
            all_prs := prs })

/-- The analysis of a record set on a fresh analyzer instance. -/
def analyze_pr_data (prs : List PR) : Except String AnalysisResult :=
  (analyze_pr_dataS freshPRState prs).2

/-! ## `MultiRepoAnalyzer` (`src/analysis/multi_repo_analyzer.py`)

Getter helpers mirror `dict.get` with its defaults on the sub-dicts that
may be in their empty-input placeholder shape. -/

def osTotalPrs : Option OverallStats → Nat
  | none => 0
  | some os => os.total_prs

def osMergeRate : Option OverallStats → Rat
  | none => 0
  | some os => os.merge_rate

def osAvgComments : Option OverallStats → Rat
  | none => 0
  | some os => os.avg_comments

def osAvgReviewComments : Option OverallStats → Rat
  | none => 0
  | some os => os.avg_review_comments

def osTotalChanges : Option OverallStats → Nat
  | none => 0
  | some os => os.total_changes

/-- `lifecycle_stats.get("avg_time_to_merge", 0)`. -/
def lcAvgTimeToMerge : LifecycleOut → Rat
  | LifecycleOut.placeholder => 0
  | LifecycleOut.full s => s.avg_time_to_merge

/-- `lifecycle_stats.get("avg_time_to_merge", float('inf'))` combined with
the `< float('inf')` admission test: `none` models the infinite default,
which is filtered out. -/
def lcAvgTimeToMergeFinite : LifecycleOut → Option Rat
  | LifecycleOut.placeholder => none
  | LifecycleOut.full s => some s.avg_time_to_merge

structure ActivityComparison where
  total_prs : Nat
  avg_prs_per_month : Rat
  peak_month : Option MonthKey
  peak_count : Nat
deriving DecidableEq, Repr

structure QualityMetrics where
  merge_rate : Rat
  avg_time_to_merge : Rat
  avg_comments : Rat
  avg_review_comments : Rat
  total_changes : Nat
deriving DecidableEq, Repr

/-- The populated `_generate_comparative_analysis` result.  The
`trend_comparison` key is initialized to `{}` and never filled, so it is
not modelled. -/
structure ComparativeStats where
  by_pr_count : List (String × Nat)
  by_merge_rate : List (String × Rat)
  by_avg_comments : List (String × Rat)
  activity_comparison : List (String × ActivityComparison)
  quality_metrics : List (String × QualityMetrics)
deriving DecidableEq, Repr

inductive CompOut where
  | message (s : String)
  | stats (c : ComparativeStats)
deriving DecidableEq, Repr

/-- `activity_comparison` entry for one repository. -/
def activityOf (a : AnalysisResult) : ActivityComparison :=
  let ms := a.monthly_stats
  let total := (ms.map fun e => e.2.count).sum
  { total_prs := total
    avg_prs_per_month := if ms.isEmpty then 0 else (total : Rat) / (ms.length : Rat)
    peak_month :=
      match ms with
      | [] => none
      | x :: xs => some (pickMax (fun e => e.2.count) x xs).1
    peak_count :=
      match ms with
      | [] => 0
      | x :: xs => (pickMax (fun e => e.2.count) x xs).2.count }

/-- `_generate_comparative_analysis`, over the accumulated
`self.repo_analyses`. -/
def generate_comparative_analysis (ras : List (String × AnalysisResult)) : CompOut :=
  if ras.length < 2 then CompOut.message "Need at least 2 repositories for comparative analysis"
  else
    CompOut.stats
      { by_pr_count := sortDescBy (fun e => e.2) (ras.map fun e => (e.1, e.2.total_prs))
        by_merge_rate :=
          sortDescBy (fun e => e.2)
            ((ras.filter fun e => 0 < osTotalPrs e.2.overall_stats).map fun e =>
              (e.1, osMergeRate e.2.overall_stats))
        by_avg_comments :=
          sortDescBy (fun e => e.2) (ras.map fun e => (e.1, osAvgComments e.2.overall_stats))
        activity_comparison := ras.map fun e => (e.1, activityOf e.2)
        quality_metrics :=
          ras.map fun e =>
            (e.1,
             { merge_rate := osMergeRate e.2.overall_stats
               avg_time_to_merge := lcAvgTimeToMerge e.2.lifecycle_stats
               avg_comments := osAvgComments e.2.overall_stats
               avg_review_comments := osAvgReviewComments e.2.overall_stats
               total_changes := osTotalChanges e.2.overall_stats }) }

/-- `std_dev` / `coefficient_of_variation` come from
`pd.Series(counts).std()`: a floating-point sample standard deviation
(`sqrt` of the sample variance with `ddof=1`, `NaN` for a single value).
`sqrt` leaves the rationals, so the exact sample variance is recorded
instead (`none` for the `NaN` case); `coefficient_of_variation =
std_dev / mean if mean > 0 else 0` is determined by it and the mean and
is not recorded separately.  No claim depends on these values. -/
structure Consistency where
  std_dev_sq : Option Rat
  min_monthly_prs : Nat
  max_monthly_prs : Nat
deriving DecidableEq, Repr

/-- Exact sample variance with `ddof=1` (`none` for fewer than two
observations, where pandas yields `NaN`). -/
def sampleVarOpt (xs : List Nat) : Option Rat :=
  if xs.length < 2 then none
  else
    let n : Rat := (xs.length : Rat)
    let mean : Rat := ((xs.sum : Rat)) / n
    some (((xs.map fun x => ((x : Rat) - mean) ^ 2).sum) / (n - 1))

def consistencyOf (n : String) (a : AnalysisResult) : Option (String × Consistency) :=
  match a.monthly_stats with
  | [] => none
  | x :: xs =>
    some
      (n,
       { std_dev_sq := sampleVarOpt ((x :: xs).map fun e => e.2.count)
         min_monthly_prs := (xs.map fun e => e.2.count).foldl min x.2.count
         max_monthly_prs := (xs.map fun e => e.2.count).foldl max x.2.count })

structure Insights where
  most_active_repo : String × Nat
  highest_quality_repo : String × Rat
  fastest_processing_repo : Option (String × Rat)
  most_engaged_community : String × Rat
  consistency_analysis : List (String × Consistency)
deriving DecidableEq, Repr

inductive InsightsOut where
  | message (s : String)
  | insights (i : Insights)
deriving DecidableEq, Repr

/-- The quality score of one repository analysis:
`merge_rate + (avg_comments + avg_review_comments) * 10`. -/
def quality_score (a : AnalysisResult) : Rat :=
  osMergeRate a.overall_stats
    + (osAvgComments a.overall_stats + osAvgReviewComments a.overall_stats) * 10

/-- The `processing_times` dict: repositories whose `lifecycle_stats`
carries a (finite) `avg_time_to_merge`, in iteration order. -/
def processing_times (ras : List (String × AnalysisResult)) : List (String × Rat) :=
  ras.filterMap fun e =>
    match lcAvgTimeToMergeFinite e.2.lifecycle_stats with
    | none => none
    | some q => some (e.1, q)

/-- Whether a repository's `lifecycle_stats` dict carries the
`avg_time_to_merge` key (the populated, non-placeholder shape). -/
def hasAvgKey (e : String × AnalysisResult) : Bool :=
  match e.2.lifecycle_stats with
  | LifecycleOut.placeholder => false
  | LifecycleOut.full _ => true

/-- `_generate_cross_repo_insights`, over the accumulated
`self.repo_analyses`. -/
def generate_cross_repo_insights (ras : List (String × AnalysisResult)) : InsightsOut :=
  if ras.length < 2 then InsightsOut.message "Need at least 2 repositories for cross-repo insights"
  else
    InsightsOut.insights
      { most_active_repo :=
          pickMaxD (fun e => e.2) ("", 0) (ras.map fun e => (e.1, e.2.total_prs))
        highest_quality_repo :=
          pickMaxD (fun e => e.2) ("", 0) (ras.map fun e => (e.1, quality_score e.2))
        fastest_processing_repo :=
          match processing_times ras with
          | [] => none
          | x :: xs => some (pickMin (fun e => e.2) x xs)
        most_engaged_community :=
          pickMaxD (fun e => e.2) ("", 0)
            (ras.map fun e =>
              (e.1, osAvgComments e.2.overall_stats + osAvgReviewComments e.2.overall_stats))
        consistency_analysis := ras.filterMap fun e => consistencyOf e.1 e.2 }

/-- The mutable state of a `MultiRepoAnalyzer` instance: the contained
`PRAnalyzer` and the `self.repo_analyses` dict, which `__init__` starts
empty and `analyze_multiple_repos` only ever adds to.
`self.comparative_stats` is initialized to `{}` and never read or
written afterwards, so it is not carried. -/
structure MultiRepoState where
  analyzer : PRState
  repo_analyses : List (String × AnalysisResult)
deriving DecidableEq, Repr

def freshMultiRepoState : MultiRepoState := { analyzer := freshPRState, repo_analyses := [] }

/-- The per-repository loop of `analyze_multiple_repos`: each analysis is
stored under its repository name; an exception aborts the loop (there is
no `try`/`except` around the call). -/
def analyzeReposLoop (st : MultiRepoState) : List (String × List PR) → MultiRepoState × Option String
  | [] => (st, none)
  | e :: rest =>
    match analyze_pr_dataS st.analyzer e.2 with
    | (a', Except.error err) => ({ st with analyzer := a' }, some err)
    | (a', Except.ok res) =>
      analyzeReposLoop { analyzer := a', repo_analyses := setAssoc e.1 res st.repo_analyses } rest

/-- The comparison result dict; `summary.generated_at` (wall clock) is
not modelled. -/
structure MultiResult where
  individual_analyses : List (String × AnalysisResult)
  comparative_analysis : CompOut
  cross_repo_insights : InsightsOut
  total_repositories : Nat
  total_prs_across_repos : Nat
  months_analyzed : Nat
  analysis_period : String
deriving DecidableEq, Repr

/-- `MultiRepoAnalyzer.analyze_multiple_repos` with the instance state
threaded explicitly.  Note that everything after the loop reads the
accumulated `self.repo_analyses`, not the call's own `repo_data`
(except `total_repositories = len(repo_data)`). -/
def analyze_multiple_repos (st : MultiRepoState) (repo_data : List (String × List PR)) :
    MultiRepoState × Except String MultiResult :=
  match analyzeReposLoop st repo_data with
  | (st', some e) => (st', Except.error e)
  | (st', none) =>
    (st',
     Except.ok
      { individual_analyses := st'.repo_analyses
        comparative_analysis := generate_comparative_analysis st'.repo_analyses
        cross_repo_insights := generate_cross_repo_insights st'.repo_analyses
        total_repositories := repo_data.length
        total_prs_across_repos := (st'.repo_analyses.map fun e => e.2.total_prs).sum
        months_analyzed :=
          st'.repo_analyses.foldl (fun m e => max m e.2.months_analyzed) 0
        analysis_period := "2025" })

/-! ## Concrete records used by witnesses and counterexamples -/

def ts0 : Timestamp := ⟨2025, 1, 1, 0, 0, 0⟩

def ts2h : Timestamp := ⟨2025, 1, 1, 2, 0, 0⟩

def ts10h : Timestamp := ⟨2025, 1, 1, 10, 0, 0⟩

/-- An open PR with a parseable creation date. -/
def prOpen : PR :=
  { number := 1, state := some "open", created_at := some ⟨2025, 1, 2, 0, 0, 0⟩
    closed_at := none, merged_at := none, comments := 0, review_comments := 0
    commits := 1, additions := 0, deletions := 0, user_login := some "alice" }

/-- A PR merged (and closed) ten hours after creation. -/
def prMerged10h : PR :=
  { number := 2, state := some "closed", created_at := some ts0
    closed_at := some ts10h, merged_at := some ts10h, comments := 1, review_comments := 0
    commits := 1, additions := 5, deletions := 1, user_login := some "bob" }

/-- A PR whose `created_at` is missing or unparsable: its analysis raises. -/
def prBadDate : PR :=
  { number := 3, state := some "open", created_at := none
    closed_at := none, merged_at := none, comments := 0, review_comments := 0
    commits := 1, additions := 0, deletions := 0, user_login := some "carol" }

/-- A PR closed at exactly its creation instant (zero-hour lifecycle). -/
def prClosed0h : PR :=
  { number := 4, state := some "closed", created_at := some ts0
    closed_at := some ts0, merged_at := none, comments := 0, review_comments := 0
    commits := 1, additions := 0, deletions := 0, user_login := some "dora" }

/-- A PR closed two hours after creation. -/
def prClosed2h : PR :=
  { number := 5, state := some "closed", created_at := some ts0
    closed_at := some ts2h, merged_at := none, comments := 0, review_comments := 0
    commits := 1, additions := 0, deletions := 0, user_login := some "dora" }

/-- The analysis of a record set, unwrapped (used to build concrete
repository maps for witnesses). -/
def exAnalysis (prs : List PR) : AnalysisResult :=
  (analyze_pr_data prs).toOption.getD emptyAnalysisResult

/-- Two analyzed repositories, neither with any merged record: both carry
`avg_time_to_merge = 0`, a tie in the processing-time pool. -/
def exTieRepos : List (String × AnalysisResult) :=
  [("x", exAnalysis [prOpen]), ("y", exAnalysis [prClosed2h])]

/-! ## Spec-side helper definitions

These express properties the claims quantify about; they are written from
the spec's words, to be compared against the embedded source. -/

/-- Arithmetic mean of a list of rationals, `0` for the empty list. -/
def meanQ (xs : List Rat) : Rat :=
  if xs = [] then 0 else xs.sum / (xs.length : Rat)

/-- The `time_to_close` value of a record that possesses a `closed_at`
timestamp (spec: computed only when the respective timestamp exists). -/
def specCloseHours (pr : PR) : Option Rat :=
  match pr.created_at, pr.closed_at with
  | some c, some cl => some (hoursBetween c cl)
  | _, _ => none

/-- The `time_to_merge` value of a record that possesses a `merged_at`
timestamp. -/
def specMergeHours (pr : PR) : Option Rat :=
  match pr.created_at, pr.merged_at with
  | some c, some m => some (hoursBetween c m)
  | _, _ => none

/-- Modelled from the spec (claim C3): the arithmetic mean of
`time_to_close` over exactly those records that possess a `closed_at`
timestamp, `0` when none qualify. -/
def specMeanTimeToClose (prs : List PR) : Rat :=
  meanQ (prs.filterMap specCloseHours)

/-- The close-delta of a record, kept only when it is nonzero: what the
source's truthiness test on `pr.get("time_to_close")` actually admits. -/
def nonzeroCloseHours (pr : PR) : Option Rat :=
  match specCloseHours pr with
  | none => none
  | some q => if q = 0 then none else some q

/-- The merge-delta of a record, kept only when it is nonzero. -/
def nonzeroMergeHours (pr : PR) : Option Rat :=
  match specMergeHours pr with
  | none => none
  | some q => if q = 0 then none else some q

/-- `o` is the first-encountered minimum of `xs` by value: `none` exactly
when `xs` is empty; otherwise an entry `p` occurring in `xs` whose value
lower-bounds every entry (the argmin) and which is strictly smaller in
value than every entry preceding its occurrence.  The two bounds pin `p`
to the earliest minimal position: a later minimal entry would have the
true minimum strictly above it in its own prefix.  This is the result of
Python's `min(..., key=...)`, which keeps the earliest minimal element on
ties. -/
def isFirstMinOn (xs : List (String × Rat)) (o : Option (String × Rat)) : Prop :=
  (xs = [] ∧ o = none) ∨
    ∃ p l1 l2, o = some p ∧ xs = l1 ++ p :: l2 ∧
      (∀ q ∈ xs, p.2 ≤ q.2) ∧ ∀ q ∈ l1, p.2 < q.2

/-- Membership characterization of the `processing_times` pool:
a pair `(n, q)` is in the pool iff the map carries an analysis for `n`
whose `lifecycle_stats` dict has the `avg_time_to_merge` key (i.e. is the
populated, non-placeholder shape) with value `q`. -/
def procTimesCharacterized (ras : List (String × AnalysisResult)) : Prop :=
  ∀ n q, (n, q) ∈ processing_times ras ↔
    ∃ a, (n, a) ∈ ras ∧ ∃ s, a.lifecycle_stats = LifecycleOut.full s ∧ s.avg_time_to_merge = q

/-- Modelled from the spec (claim C6): the quality score
`merge_rate + 10 × (avg_comments + avg_review_comments)`. -/
def qualityScoreSpec (a : AnalysisResult) : Rat :=
  osMergeRate a.overall_stats
    + 10 * (osAvgComments a.overall_stats + osAvgReviewComments a.overall_stats)

/-- Projection helpers for closed counterexample statements. -/
def avgCloseOf (e : Except String LifecycleStats) : Rat :=
  match e with
  | Except.ok s => s.avg_time_to_close
  | Except.error _ => -1

def crossInsightsOf (e : Except String MultiResult) : InsightsOut :=
  match e with
  | Except.ok r => r.cross_repo_insights
  | Except.error err => InsightsOut.message err

def fastestOf (o : InsightsOut) : Option (String × Rat) :=
  match o with
  | InsightsOut.message _ => none
  | InsightsOut.insights i => i.fastest_processing_repo

/-- The `merged_prs` count recorded for a named repository inside a
comparison result, when present. -/
def mergedPrsOfRepo (e : Except String MultiResult) (name : String) : Option Nat :=
  match e with
  | Except.error _ => none
  | Except.ok r =>
    match (r.individual_analyses.filter fun p => p.1 == name).headD (name, emptyAnalysisResult) with
    | (_, a) =>
      match a.lifecycle_stats with
      | LifecycleOut.placeholder => none
      | LifecycleOut.full s => some s.merged_prs

/-- The `avg_time_to_merge` value (when its key is present) recorded for a
named repository inside a comparison result. -/
def avgMergeOfRepo (e : Except String MultiResult) (name : String) : Option Rat :=
  match e with
  | Except.error _ => none
  | Except.ok r =>
    match (r.individual_analyses.filter fun p => p.1 == name).headD (name, emptyAnalysisResult) with
    | (_, a) => lcAvgTimeToMergeFinite a.lifecycle_stats

/-- The repository names present in a comparison result's
`individual_analyses`, in dict order. -/
def namesOf (e : Except String MultiResult) : List String :=
  match e with
  | Except.error _ => []
  | Except.ok r => r.individual_analyses.map fun p => p.1

/-- Total record count of the month buckets. -/
def sumLens (g : List (MonthKey × List PR)) : Nat :=
  (g.map fun e => e.2.length).sum

/-- The lifecycle record a PR with a parseable `created_at` maps to. -/
def lifecycleRecOf (pr : PR) : LifecycleRecord :=
  let c := pr.created_at.getD ⟨0, 0, 0, 0, 0, 0⟩
  { pr_number := pr.number
    created_at := c
    closed_at := pr.closed_at
    merged_at := pr.merged_at
    state := pr.state
    is_merged := pr.merged_at.isSome
    time_to_close := pr.closed_at.map fun cl => hoursBetween c cl
    time_to_merge := pr.merged_at.map fun m => hoursBetween c m }

/-! ## Shared lemmas -/

/-- The returned analysis never depends on the incoming instance state:
every read of `self.monthly_data` happens after the method reassigns it. -/
theorem snd_analyze_pr_dataS (s : PRState) (prs : List PR) :
    (analyze_pr_dataS s prs).2 = analyze_pr_data prs := by
  unfold analyze_pr_data analyze_pr_dataS
  cases prs.isEmpty
  · simp only [Bool.false_eq_true, if_false]
    cases group_by_month prs <;> simp only []
  · simp only [if_true]

theorem pickMax_mem {α β : Type} (key : α → β) [LinearOrder β] (x : α) (xs : List α) :
    pickMax key x xs ∈ x :: xs := by
  induction xs generalizing x with
  | nil => simp [pickMax]
  | cons y ys ih =>
    have h := ih (if key x < key y then y else x)
    simp only [pickMax, List.foldl_cons] at h ⊢
    rcases List.mem_cons.mp h with h1 | h1
    · rw [h1]
      split
      · exact List.mem_cons_of_mem _ (List.mem_cons_self _ _)
      · exact List.mem_cons_self _ _
    · exact List.mem_cons_of_mem _ (List.mem_cons_of_mem _ h1)

theorem le_pickMax {α β : Type} (key : α → β) [LinearOrder β] (x : α) (xs : List α) :
    ∀ z ∈ x :: xs, key z ≤ key (pickMax key x xs) := by
  induction xs generalizing x with
  | nil =>
    intro z hz
    rcases List.mem_cons.mp hz with h1 | h1
    · rw [h1]; simp [pickMax]
    · cases h1
  | cons y ys ih =>
    intro z hz
    have hstep : key x ≤ key (if key x < key y then y else x) ∧
        key y ≤ key (if key x < key y then y else x) := by
      split
      · exact ⟨le_of_lt (by assumption), le_refl _⟩
      · exact ⟨le_refl _, le_of_not_lt (by assumption)⟩
    have hrest := ih (if key x < key y then y else x)
    have hhead := hrest _ (List.mem_cons_self _ _)
    simp only [pickMax, List.foldl_cons] at hhead ⊢
    rcases List.mem_cons.mp hz with h1 | h1
    · rw [h1]; exact le_trans hstep.1 hhead
    · rcases List.mem_cons.mp h1 with h2 | h2
      · rw [h2]; exact le_trans hstep.2 hhead
      · exact hrest _ (List.mem_cons_of_mem _ h2)

theorem pickMin_mem {α β : Type} (key : α → β) [LinearOrder β] (x : α) (xs : List α) :
    pickMin key x xs ∈ x :: xs := by
  induction xs generalizing x with
  | nil => simp [pickMin]
  | cons y ys ih =>
    have h := ih (if key y < key x then y else x)
    simp only [pickMin, List.foldl_cons] at h ⊢
    rcases List.mem_cons.mp h with h1 | h1
    · rw [h1]
      split
      · exact List.mem_cons_of_mem _ (List.mem_cons_self _ _)
      · exact List.mem_cons_self _ _
    · exact List.mem_cons_of_mem _ (List.mem_cons_of_mem _ h1)

theorem pickMin_le {α β : Type} (key : α → β) [LinearOrder β] (x : α) (xs : List α) :
    ∀ z ∈ x :: xs, key (pickMin key x xs) ≤ key z := by
  induction xs generalizing x with
  | nil =>
    intro z hz
    rcases List.mem_cons.mp hz with h1 | h1
    · rw [h1]; simp [pickMin]
    · cases h1
  | cons y ys ih =>
    intro z hz
    have hstep : key (if key y < key x then y else x) ≤ key x ∧
        key (if key y < key x then y else x) ≤ key y := by
      split
      · exact ⟨le_of_lt (by assumption), le_refl _⟩
      · exact ⟨le_refl _, le_of_not_lt (by assumption)⟩
    have hrest := ih (if key y < key x then y else x)
    have hhead := hrest _ (List.mem_cons_self _ _)
    simp only [pickMin, List.foldl_cons] at hhead ⊢
    rcases List.mem_cons.mp hz with h1 | h1
    · rw [h1]; exact le_trans hhead hstep.1
    · rcases List.mem_cons.mp h1 with h2 | h2
      · rw [h2]; exact le_trans hhead hstep.2
      · exact hrest _ (List.mem_cons_of_mem _ h2)

/-- `pickMin` returns the first-encountered minimum: the list splits
around the returned element, and every element strictly before it has a
strictly greater key (on a tie the earlier element is kept, so the fold
never moves past the first minimal position). -/
theorem pickMin_first {α β : Type} (key : α → β) [LinearOrder β] (xs : List α) :
    ∀ x, ∃ l1 l2, x :: xs = l1 ++ (pickMin key x xs) :: l2 ∧
      ∀ q ∈ l1, key (pickMin key x xs) < key q := by
  induction xs with
  | nil => exact fun x => ⟨[], [], rfl, fun q hq => absurd hq (List.not_mem_nil q)⟩
  | cons y ys ih =>
    intro x
    by_cases hxy : key y < key x
    · have hstep : pickMin key x (y :: ys) = pickMin key y ys := by
        simp only [pickMin, List.foldl_cons, if_pos hxy]
      have hm_le : key (pickMin key y ys) ≤ key y :=
        pickMin_le key y ys y (List.mem_cons_self _ _)
      obtain ⟨l1, l2, hsplit, h1⟩ := ih y
      refine ⟨x :: l1, l2, ?_, ?_⟩
      · rw [hstep, List.cons_append, ← hsplit]
      · intro q hq
        rw [hstep]
        rcases List.mem_cons.mp hq with h | h
        · subst h
          exact lt_of_le_of_lt hm_le hxy
        · exact h1 q h
    · have hstep : pickMin key x (y :: ys) = pickMin key x ys := by
        simp only [pickMin, List.foldl_cons, if_neg hxy]
      have hxley : key x ≤ key y := le_of_not_lt hxy
      obtain ⟨l1, l2, hsplit, h1⟩ := ih x
      rcases l1 with _ | ⟨x', t⟩
      · rw [List.nil_append] at hsplit
        injection hsplit with hx hl2
        refine ⟨[], y :: ys, ?_, fun q hq => absurd hq (List.not_mem_nil q)⟩
        rw [hstep, List.nil_append, ← hx]
      · rw [List.cons_append] at hsplit
        injection hsplit with hx' hys
        have hmx : key (pickMin key x ys) < key x := by
          have hx_in : x ∈ x' :: t := by rw [hx']; exact List.mem_cons_self _ _
          exact h1 x hx_in
        refine ⟨x :: y :: t, l2, ?_, ?_⟩
        · rw [hstep, List.cons_append, List.cons_append, ← hys]
        · intro q hq
          rw [hstep]
          rcases List.mem_cons.mp hq with h | h
          · subst h
            exact hmx
          · rcases List.mem_cons.mp h with h' | h'
            · subst h'
              exact lt_of_lt_of_le hmx hxley
            · exact h1 q (List.mem_cons_of_mem _ h')

theorem length_setAssoc (k : String) {V : Type} (v : V) (l : List (String × V)) :
    (setAssoc k v l).length ≤ l.length + 1 := by
  induction l with
  | nil => simp [setAssoc]
  | cons e rest ih =>
    rcases e with ⟨k', v'⟩
    unfold setAssoc
    split
    · simp
    · simpa using Nat.succ_le_succ ih

theorem sumLens_appendGrouped (k : MonthKey) (pr : PR) (g : List (MonthKey × List PR)) :
    sumLens (appendGrouped k pr g) = sumLens g + 1 := by
  induction g with
  | nil => simp [appendGrouped, sumLens]
  | cons e rest ih =>
    rcases e with ⟨k', l⟩
    unfold appendGrouped
    split
    · simp only [sumLens, List.map_cons, List.sum_cons, List.length_append,
        List.length_singleton]
      omega
    · simp only [sumLens, List.map_cons, List.sum_cons] at ih ⊢
      omega

theorem group_by_month_aux_ok (prs : List PR) :
    ∀ acc, (∀ pr ∈ prs, pr.created_at.isSome) →
      ∃ g, group_by_month_aux acc prs = Except.ok g ∧ sumLens g = sumLens acc + prs.length := by
  induction prs with
  | nil => exact fun acc _ => ⟨acc, rfl, by simp⟩
  | cons pr rest ih =>
    intro acc h
    have hc : pr.created_at.isSome := h pr (List.mem_cons_self _ _)
    rcases ho : pr.created_at with _ | t
    · rw [ho] at hc; cases hc
    · obtain ⟨g, hg, hsum⟩ :=
        ih (appendGrouped t.monthKey pr acc) fun p hp => h p (List.mem_cons_of_mem _ hp)
      refine ⟨g, ?_, ?_⟩
      · simp only [group_by_month_aux, ho]
        exact hg
      · rw [hsum, sumLens_appendGrouped]
        simp only [List.length_cons]
        omega

theorem group_by_month_ok (prs : List PR) (h : ∀ pr ∈ prs, pr.created_at.isSome) :
    ∃ g, group_by_month prs = Except.ok g ∧ sumLens g = prs.length := by
  obtain ⟨g, hg, hsum⟩ := group_by_month_aux_ok prs [] h
  exact ⟨g, hg, by simpa [sumLens] using hsum⟩

theorem sum_counts_calculate_monthly_stats (g : List (MonthKey × List PR)) :
    ((calculate_monthly_stats g).map fun e => e.2.count).sum = sumLens g := by
  induction g with
  | nil => rfl
  | cons e rest ih =>
    simp only [calculate_monthly_stats, monthlyStatOf, sumLens, List.map_cons,
      List.sum_cons] at ih ⊢
    omega

theorem prToLifecycle_eq (pr : PR) (c : Timestamp) (ho : pr.created_at = some c) :
    prToLifecycle pr = Except.ok (lifecycleRecOf pr) := by
  unfold prToLifecycle lifecycleRecOf
  rw [ho]
  simp [Option.getD]

theorem lifecycleRecords_eq (prs : List PR) (h : ∀ pr ∈ prs, pr.created_at.isSome) :
    lifecycleRecords prs = Except.ok (prs.map lifecycleRecOf) := by
  induction prs with
  | nil => rfl
  | cons pr rest ih =>
    have hc : pr.created_at.isSome := h pr (List.mem_cons_self _ _)
    rcases ho : pr.created_at with _ | c
    · rw [ho] at hc; cases hc
    · rw [List.map_cons]
      simp only [lifecycleRecords, prToLifecycle_eq pr c ho,
        ih fun p hp => h p (List.mem_cons_of_mem _ hp)]

theorem avg_if_eq_meanQ (l : List LifecycleRecord) (f : LifecycleRecord → Rat) :
    (if l.isEmpty then (0 : Rat) else (l.map f).sum / (l.length : Rat)) = meanQ (l.map f) := by
  cases l <;> simp [meanQ]

theorem closed_filter_map (prs : List PR) (h : ∀ pr ∈ prs, pr.created_at.isSome) :
    (((prs.map lifecycleRecOf).filter fun r => truthyQ r.time_to_close).map
        fun r => r.time_to_close.getD 0)
      = prs.filterMap nonzeroCloseHours := by
  induction prs with
  | nil => rfl
  | cons pr rest ih =>
    have hc : pr.created_at.isSome := h pr (List.mem_cons_self _ _)
    have ih' := ih fun p hp => h p (List.mem_cons_of_mem _ hp)
    rcases ho : pr.created_at with _ | c
    · rw [ho] at hc; cases hc
    · have hgd : pr.created_at.getD ⟨0, 0, 0, 0, 0, 0⟩ = c := by rw [ho]; rfl
      rcases hcl : pr.closed_at with _ | cl
      · have h1 : (lifecycleRecOf pr).time_to_close = none := by
          simp [lifecycleRecOf, hcl]
        have ht : truthyQ (lifecycleRecOf pr).time_to_close = false := by
          rw [h1]; rfl
        have h2 : nonzeroCloseHours pr = none := by
          simp [nonzeroCloseHours, specCloseHours, ho, hcl]
        simp only [List.map_cons, List.filter_cons, ht, Bool.false_eq_true, if_false,
          List.filterMap_cons, h2, ih']
      · have h1 : (lifecycleRecOf pr).time_to_close = some (hoursBetween c cl) := by
          simp [lifecycleRecOf, hcl, hgd]
        by_cases hz : hoursBetween c cl = 0
        · have ht : truthyQ (lifecycleRecOf pr).time_to_close = false := by
            rw [h1]; simp [truthyQ, hz]
          have h2 : nonzeroCloseHours pr = none := by
            simp [nonzeroCloseHours, specCloseHours, ho, hcl, hz]
          simp only [List.map_cons, List.filter_cons, ht, Bool.false_eq_true, if_false,
            List.filterMap_cons, h2, ih']
        · have ht : truthyQ (some (hoursBetween c cl)) = true := by
            simp [truthyQ, hz]
          have h2 : nonzeroCloseHours pr = some (hoursBetween c cl) := by
            simp [nonzeroCloseHours, specCloseHours, ho, hcl, hz]
          simp only [List.map_cons, List.filter_cons, h1, ht, if_true, List.filterMap_cons,
            h2, ih', Option.getD_some]

theorem merged_filter_map (prs : List PR) (h : ∀ pr ∈ prs, pr.created_at.isSome) :
    (((prs.map lifecycleRecOf).filter fun r => truthyQ r.time_to_merge).map
        fun r => r.time_to_merge.getD 0)
      = prs.filterMap nonzeroMergeHours := by
  induction prs with
  | nil => rfl
  | cons pr rest ih =>
    have hc : pr.created_at.isSome := h pr (List.mem_cons_self _ _)
    have ih' := ih fun p hp => h p (List.mem_cons_of_mem _ hp)
    rcases ho : pr.created_at with _ | c
    · rw [ho] at hc; cases hc
    · have hgd : pr.created_at.getD ⟨0, 0, 0, 0, 0, 0⟩ = c := by rw [ho]; rfl
      rcases hm : pr.merged_at with _ | m
      · have h1 : (lifecycleRecOf pr).time_to_merge = none := by
          simp [lifecycleRecOf, hm]
        have ht : truthyQ (lifecycleRecOf pr).time_to_merge = false := by
          rw [h1]; rfl
        have h2 : nonzeroMergeHours pr = none := by
          simp [nonzeroMergeHours, specMergeHours, ho, hm]
        simp only [List.map_cons, List.filter_cons, ht, Bool.false_eq_true, if_false,
          List.filterMap_cons, h2, ih']
      · have h1 : (lifecycleRecOf pr).time_to_merge = some (hoursBetween c m) := by
          simp [lifecycleRecOf, hm, hgd]
        by_cases hz : hoursBetween c m = 0
        · have ht : truthyQ (lifecycleRecOf pr).time_to_merge = false := by
            rw [h1]; simp [truthyQ, hz]
          have h2 : nonzeroMergeHours pr = none := by
            simp [nonzeroMergeHours, specMergeHours, ho, hm, hz]
          simp only [List.map_cons, List.filter_cons, ht, Bool.false_eq_true, if_false,
            List.filterMap_cons, h2, ih']
        · have ht : truthyQ (some (hoursBetween c m)) = true := by
            simp [truthyQ, hz]
          have h2 : nonzeroMergeHours pr = some (hoursBetween c m) := by
            simp [nonzeroMergeHours, specMergeHours, ho, hm, hz]
          simp only [List.map_cons, List.filter_cons, h1, ht, if_true, List.filterMap_cons,
            h2, ih', Option.getD_some]

theorem mem_processing_times (ras : List (String × AnalysisResult)) (n : String) (q : Rat) :
    (n, q) ∈ processing_times ras ↔
      ∃ a, (n, a) ∈ ras ∧ ∃ s, a.lifecycle_stats = LifecycleOut.full s ∧
        s.avg_time_to_merge = q := by
  unfold processing_times
  rw [List.mem_filterMap]
  constructor
  · rintro ⟨⟨n', a⟩, he, hfe⟩
    dsimp only at hfe
    rcases hls : a.lifecycle_stats with _ | s
    · rw [hls] at hfe
      simp [lcAvgTimeToMergeFinite] at hfe
    · rw [hls] at hfe
      simp only [lcAvgTimeToMergeFinite, Option.some.injEq, Prod.mk.injEq] at hfe
      obtain ⟨hn, hq⟩ := hfe
      subst hn
      exact ⟨a, he, s, hls, hq⟩
  · rintro ⟨a, ha, s, hs, hq⟩
    refine ⟨(n, a), ha, ?_⟩
    dsimp only
    rw [hs]
    simp [lcAvgTimeToMergeFinite, hq]

/-- The `processing_times` pool is exactly the subsequence of the
repository map whose `lifecycle_stats` carries the `avg_time_to_merge`
key, in original iteration order, valued by that key. -/
theorem processing_times_eq (ras : List (String × AnalysisResult)) :
    processing_times ras
      = (ras.filter hasAvgKey).map fun e => (e.1, lcAvgTimeToMerge e.2.lifecycle_stats) := by
  induction ras with
  | nil => rfl
  | cons e rest ih =>
    rcases hls : e.2.lifecycle_stats with _ | s
    · have h1 : hasAvgKey e = false := by
        unfold hasAvgKey
        rw [hls]
      have h2 : lcAvgTimeToMergeFinite e.2.lifecycle_stats = none := by
        rw [hls]
        rfl
      simp only [processing_times, List.filterMap_cons, h2, List.filter_cons, h1,
        Bool.false_eq_true, if_false]
      simp only [processing_times] at ih
      exact ih
    · have h1 : hasAvgKey e = true := by
        unfold hasAvgKey
        rw [hls]
      have h2 : lcAvgTimeToMergeFinite e.2.lifecycle_stats = some s.avg_time_to_merge := by
        rw [hls]
        rfl
      have h3 : lcAvgTimeToMerge e.2.lifecycle_stats = s.avg_time_to_merge := by
        rw [hls]
        rfl
      simp only [processing_times, List.filterMap_cons, h2, List.filter_cons, h1, if_true,
        List.map_cons, h3]
      simp only [processing_times] at ih
      rw [ih]

theorem filter_orderedInsert_key_eq {α β : Type} (key : α → β) [LinearOrder β] (v : β)
    (x : α) (hx : key x = v) (l : List α) :
    (List.orderedInsert (keyGe key) x l).filter (fun e => decide (key e = v))
      = x :: l.filter (fun e => decide (key e = v)) := by
  induction l with
  | nil => simp [List.orderedInsert, hx]
  | cons y ys ih =>
    by_cases hr : keyGe key x y
    · rw [List.orderedInsert, if_pos hr]
      simp [List.filter_cons, hx]
    · have hlt : key x < key y := lt_of_not_le hr
      have hy : decide (key y = v) = false := by
        rw [decide_eq_false_iff_not, ← hx]
        exact ne_of_gt hlt
      rw [List.orderedInsert, if_neg hr]
      simp only [List.filter_cons, hy, Bool.false_eq_true, if_false, ih]

theorem filter_orderedInsert_key_ne {α β : Type} (key : α → β) [LinearOrder β] (v : β)
    (x : α) (hx : key x ≠ v) (l : List α) :
    (List.orderedInsert (keyGe key) x l).filter (fun e => decide (key e = v))
      = l.filter (fun e => decide (key e = v)) := by
  induction l with
  | nil => simp [List.orderedInsert, hx]
  | cons y ys ih =>
    by_cases hr : keyGe key x y
    · rw [List.orderedInsert, if_pos hr]
      simp [List.filter_cons, hx]
    · rw [List.orderedInsert, if_neg hr]
      simp only [List.filter_cons, ih]

/-- Stability of the descending sort: for every key value, the entries
carrying that value appear in the sorted list exactly in their original
order. -/
theorem filter_sortDescBy {α β : Type} (key : α → β) [LinearOrder β] (v : β) (l : List α) :
    (sortDescBy key l).filter (fun e => decide (key e = v))
      = l.filter (fun e => decide (key e = v)) := by
  induction l with
  | nil => rfl
  | cons x xs ih =>
    have hstep : sortDescBy key (x :: xs)
        = List.orderedInsert (keyGe key) x (sortDescBy key xs) := rfl
    by_cases hx : key x = v
    · rw [hstep, filter_orderedInsert_key_eq key v x hx, ih]
      simp [List.filter_cons, hx]
    · rw [hstep, filter_orderedInsert_key_ne key v x hx, ih]
      simp [List.filter_cons, hx]

theorem sortDescBy_sorted {α β : Type} (key : α → β) [LinearOrder β] (l : List α) :
    List.Sorted (keyGe key) (sortDescBy key l) :=
  List.sorted_insertionSort (keyGe key) l

theorem sortDescBy_perm {α β : Type} (key : α → β) [LinearOrder β] (l : List α) :
    (sortDescBy key l).Perm l :=
  List.perm_insertionSort (keyGe key) l

theorem osTotalPrs_calculate (prs : List PR) (hne : prs ≠ []) :
    osTotalPrs (calculate_overall_stats prs) = prs.length := by
  have hlen : prs.length ≠ 0 := by simpa [List.length_eq_zero] using hne
  unfold calculate_overall_stats
  rw [if_neg hlen]
  rfl

theorem calculate_lifecycle_stats_ok (prs : List PR)
    (h : ∀ pr ∈ prs, pr.created_at.isSome) :
    ∃ lc, calculate_lifecycle_stats prs = Except.ok lc := by
  unfold calculate_lifecycle_stats
  rw [lifecycleRecords_eq prs h]
  exact ⟨_, rfl⟩

/-- The shape of a successful analysis of a non-empty record set. -/
theorem analyze_pr_data_eq (prs : List PR) (hne : prs ≠ [])
    (h : ∀ pr ∈ prs, pr.created_at.isSome) :
    ∃ g lc, group_by_month prs = Except.ok g ∧ sumLens g = prs.length ∧
      calculate_lifecycle_stats prs = Except.ok lc ∧
      analyze_pr_data prs = Except.ok
        { total_prs := prs.length
          analysis_period := "2025"
          months_analyzed := (calculate_monthly_stats g).length
          monthly_stats := calculate_monthly_stats g
          overall_stats := calculate_overall_stats prs
          trends := calculate_trends (calculate_monthly_stats g)
          contributor_stats := calculate_contributor_stats prs
          lifecycle_stats := LifecycleOut.full lc
          prs_by_month := g
          all_prs := prs } := by
  obtain ⟨g, hg, hsum⟩ := group_by_month_ok prs h
  obtain ⟨lc, hlc⟩ := calculate_lifecycle_stats_ok prs h
  have hne' : prs.isEmpty = false := by
    cases prs
    · cases hne rfl
    · rfl
  refine ⟨g, lc, hg, hsum, hlc, ?_⟩
  unfold analyze_pr_data analyze_pr_dataS
  simp only [hne', Bool.false_eq_true, if_false, hg, hlc]

theorem analyze_pr_data_isOk (prs : List PR) (h : ∀ pr ∈ prs, pr.created_at.isSome) :
    (analyze_pr_data prs).isOk = true := by
  rcases hp : prs with _ | ⟨pr, rest⟩
  · rfl
  · rw [← hp]
    have hne : prs ≠ [] := by rw [hp]; exact List.cons_ne_nil _ _
    obtain ⟨g, lc, _, _, _, heq⟩ := analyze_pr_data_eq prs hne h
    rw [heq]
    rfl

/-- A per-repository loop over repositories that all analyze successfully
completes without raising, and adds at most one `repo_analyses` entry per
repository. -/
theorem analyzeReposLoop_all_ok (l : List (String × List PR)) :
    ∀ st, (∀ e ∈ l, (analyze_pr_data e.2).isOk = true) →
      ∃ st', analyzeReposLoop st l = (st', none) ∧
        st'.repo_analyses.length ≤ st.repo_analyses.length + l.length := by
  induction l with
  | nil => exact fun st _ => ⟨st, rfl, by simp⟩
  | cons e rest ih =>
    intro st h
    have hok := h e (List.mem_cons_self _ _)
    rcases hr : analyze_pr_data e.2 with err | r
    · rw [hr] at hok; cases hok
    · have hS : analyze_pr_dataS st.analyzer e.2
          = ((analyze_pr_dataS st.analyzer e.2).1, Except.ok r) := by
        have := snd_analyze_pr_dataS st.analyzer e.2
        rw [hr] at this
        exact Prod.ext rfl this
      obtain ⟨st', hst', hlen⟩ :=
        ih { analyzer := (analyze_pr_dataS st.analyzer e.2).1
             repo_analyses := setAssoc e.1 r st.repo_analyses }
          fun p hp => h p (List.mem_cons_of_mem _ hp)
      refine ⟨st', ?_, ?_⟩
      · rw [analyzeReposLoop, hS]
        exact hst'
      · calc st'.repo_analyses.length
            ≤ (setAssoc e.1 r st.repo_analyses).length + rest.length := hlen
          _ ≤ st.repo_analyses.length + 1 + rest.length :=
              Nat.add_le_add_right (length_setAssoc e.1 r st.repo_analyses) _
          _ = st.repo_analyses.length + (e :: rest).length := by
              simp [List.length_cons]
              omega

/-- A loop that reaches a repository whose analysis raises propagates that
exact error, after which nothing further runs. -/
theorem analyzeReposLoop_error (pre : List (String × List PR)) :
    ∀ st (name : String) (prs : List PR) (post : List (String × List PR)) (err : String),
      (∀ e ∈ pre, (analyze_pr_data e.2).isOk = true) →
      analyze_pr_data prs = Except.error err →
      ∃ st', analyzeReposLoop st (pre ++ (name, prs) :: post) = (st', some err) := by
  induction pre with
  | nil =>
    intro st name prs post err _ hfail
    rcases hp : analyze_pr_dataS st.analyzer prs with ⟨a', res⟩
    have hres : res = Except.error err := by
      have h2 := snd_analyze_pr_dataS st.analyzer prs
      rw [hp] at h2
      rw [hfail] at h2
      exact h2
    subst hres
    refine ⟨{ st with analyzer := a' }, ?_⟩
    rw [List.nil_append]
    simp only [analyzeReposLoop, hp]
  | cons e rest ih =>
    intro st name prs post err h hfail
    have hok := h e (List.mem_cons_self _ _)
    rcases hr : analyze_pr_data e.2 with e0 | r
    · rw [hr] at hok; cases hok
    · have hS : analyze_pr_dataS st.analyzer e.2
          = ((analyze_pr_dataS st.analyzer e.2).1, Except.ok r) := by
        have := snd_analyze_pr_dataS st.analyzer e.2
        rw [hr] at this
        exact Prod.ext rfl this
      obtain ⟨st', hst'⟩ :=
        ih { analyzer := (analyze_pr_dataS st.analyzer e.2).1
             repo_analyses := setAssoc e.1 r st.repo_analyses }
          name prs post err (fun p hp => h p (List.mem_cons_of_mem _ hp)) hfail
      refine ⟨st', ?_⟩
      rw [List.cons_append, analyzeReposLoop, hS]
      exact hst'

/-! ## Claim theorems -/

/-- C9: for the empty record set, the single-repository analysis raises no
exception and returns the fully-populated zeroed result: `total_prs = 0`,
empty monthly maps, the `"No data available"` trend placeholder, and
`{total_contributors := 0, top_contributors := []}`. -/
theorem C9_empty_input_zeroed_result :
    analyze_pr_data [] = Except.ok emptyAnalysisResult ∧
    emptyAnalysisResult.total_prs = 0 ∧
    emptyAnalysisResult.monthly_stats = [] ∧
    emptyAnalysisResult.prs_by_month = [] ∧
    emptyAnalysisResult.trends = Trends.message "No data available" ∧
    emptyAnalysisResult.contributor_stats.total_contributors = 0 ∧
    emptyAnalysisResult.contributor_stats.top_contributors = [] :=
  ⟨rfl, rfl, rfl, rfl, rfl, rfl, rfl⟩

/-- C4 counterexample: analysis state leaks between invocations. Running
the comparison for repository map `{"a": ...}` and then, on the same
instance, for `{"b": ...}` yields a second result whose
`individual_analyses` still contains `"a"`, unlike the result of the same
second call on a fresh instance; so the claim that no data from an
earlier call leaks into a later call's output is false. -/
theorem C4_counterexample :
    namesOf (analyze_multiple_repos
        (analyze_multiple_repos freshMultiRepoState [("a", [prOpen])]).1
        [("b", [prMerged10h])]).2 = ["a", "b"] ∧
    namesOf (analyze_multiple_repos freshMultiRepoState [("b", [prMerged10h])]).2 = ["b"] ∧
    (analyze_multiple_repos
        (analyze_multiple_repos freshMultiRepoState [("a", [prOpen])]).1
        [("b", [prMerged10h])]).2
      ≠ (analyze_multiple_repos freshMultiRepoState [("b", [prMerged10h])]).2 := by
  refine ⟨rfl, rfl, fun h => ?_⟩
  have hn := congrArg namesOf h
  rw [show namesOf (analyze_multiple_repos
        (analyze_multiple_repos freshMultiRepoState [("a", [prOpen])]).1
        [("b", [prMerged10h])]).2 = ["a", "b"] from rfl,
      show namesOf (analyze_multiple_repos freshMultiRepoState [("b", [prMerged10h])]).2
        = ["b"] from rfl] at hn
  exact absurd hn (by decide)

/-- C4 (amended): the single-repository analysis is state-independent —
its returned value depends only on the supplied records, never on the
analyzer instance's prior `monthly_data`; the multi-repository comparison,
by contrast, accumulates `repo_analyses` across calls (see the
counterexample), so only calls on a fresh comparator instance are
history-free. -/
theorem C4_amended_single_repo_stateless (s1 s2 : PRState) (prs : List PR) :
    (analyze_pr_dataS s1 prs).2 = (analyze_pr_dataS s2 prs).2 := by
  rw [snd_analyze_pr_dataS, snd_analyze_pr_dataS]

/-- C1 counterexample: with repository `"alpha"` holding a record whose
`created_at` does not parse and sibling `"beta"` holding a perfectly
analyzable record, the whole comparison raises (returns the parse error):
no per-repository error tagged `"alpha"` is produced and no analysis of
the sibling `"beta"` is reported, refuting the claimed isolation. -/
theorem C1_counterexample :
    (analyze_multiple_repos freshMultiRepoState
        [("alpha", [prBadDate]), ("beta", [prOpen])]).2
      = Except.error "unparsable created_at" ∧
    (analyze_pr_data [prOpen]).isOk = true ∧
    namesOf (analyze_multiple_repos freshMultiRepoState
        [("alpha", [prBadDate]), ("beta", [prOpen])]).2 = [] :=
  ⟨rfl, rfl, rfl⟩

/-- C1 (amended): a failure of one repository's analysis is propagated as
the raised exception of the whole `analyze_multiple_repos` call — the
first failing repository's error aborts the comparison, repositories
after it are not analyzed, and no per-repository error tagged with the
repository name is produced. -/
theorem C1_amended_error_propagates (st : MultiRepoState) (pre : List (String × List PR))
    (name : String) (prs : List PR) (post : List (String × List PR)) (err : String)
    (hpre : ∀ e ∈ pre, (analyze_pr_data e.2).isOk = true)
    (hfail : analyze_pr_data prs = Except.error err) :
    (analyze_multiple_repos st (pre ++ (name, prs) :: post)).2 = Except.error err := by
  obtain ⟨st', hst'⟩ := analyzeReposLoop_error pre st name prs post err hpre hfail
  unfold analyze_multiple_repos
  rw [hst']

theorem C1_amended_error_propagates_witness :
    (∀ e ∈ [(("beta" : String), [prOpen])], (analyze_pr_data e.2).isOk = true) ∧
    analyze_pr_data [prBadDate] = Except.error "unparsable created_at" ∧
    (analyze_multiple_repos freshMultiRepoState
        ([("beta", [prOpen])] ++ ("alpha", [prBadDate]) :: [])).2
      = Except.error "unparsable created_at" := by
  refine ⟨?_, rfl, ?_⟩
  · intro e he
    simp only [List.mem_singleton] at he
    subst he
    rfl
  · exact C1_amended_error_propagates freshMultiRepoState [("beta", [prOpen])] "alpha"
      [prBadDate] [] "unparsable created_at"
      (by
        intro e he
        simp only [List.mem_singleton] at he
        subst he
        rfl)
      rfl

/-- C10: for every input map with fewer than two repositories (whose
records all carry parseable creation dates, so that no analysis raises),
the comparison succeeds and both `comparative_analysis` and
`cross_repo_insights` degrade to their need-at-least-2 placeholder
messages. -/
theorem C10_fewer_than_two_repos_degrade (repo_data : List (String × List PR))
    (hlen : repo_data.length < 2)
    (hparse : ∀ e ∈ repo_data, ∀ pr ∈ e.2, pr.created_at.isSome) :
    ∃ r, (analyze_multiple_repos freshMultiRepoState repo_data).2 = Except.ok r ∧
      r.comparative_analysis
        = CompOut.message "Need at least 2 repositories for comparative analysis" ∧
      r.cross_repo_insights
        = InsightsOut.message "Need at least 2 repositories for cross-repo insights" := by
  have hall : ∀ e ∈ repo_data, (analyze_pr_data e.2).isOk = true :=
    fun e he => analyze_pr_data_isOk e.2 (hparse e he)
  obtain ⟨st', hloop, hlen'⟩ := analyzeReposLoop_all_ok repo_data freshMultiRepoState hall
  have hlt : st'.repo_analyses.length < 2 := by
    simp only [freshMultiRepoState, List.length_nil] at hlen'
    omega
  unfold analyze_multiple_repos
  rw [hloop]
  refine ⟨_, rfl, ?_, ?_⟩
  · show generate_comparative_analysis st'.repo_analyses = _
    unfold generate_comparative_analysis
    rw [if_pos hlt]
  · show generate_cross_repo_insights st'.repo_analyses = _
    unfold generate_cross_repo_insights
    rw [if_pos hlt]

theorem C10_fewer_than_two_repos_degrade_witness :
    ([(("solo" : String), [prOpen])].length < 2) ∧
    (∀ e ∈ [(("solo" : String), [prOpen])], ∀ pr ∈ e.2, pr.created_at.isSome) ∧
    (∃ r, (analyze_multiple_repos freshMultiRepoState [("solo", [prOpen])]).2 = Except.ok r ∧
      r.comparative_analysis
        = CompOut.message "Need at least 2 repositories for comparative analysis" ∧
      r.cross_repo_insights
        = InsightsOut.message "Need at least 2 repositories for cross-repo insights") :=
  ⟨by decide, by decide, C10_fewer_than_two_repos_degrade _ (by decide) (by decide)⟩

/-- C3 counterexample: for two records possessing `closed_at` timestamps,
one closed at exactly its creation instant (delta `0` hours) and one
closed two hours after creation, the code's `avg_time_to_close` is `2`
(the zero-delta record is dropped by the truthiness filter), while the
mean over the records possessing the timestamp — as the claim demands —
is `1`; hence the claim is false. -/
theorem C3_counterexample :
    avgCloseOf (calculate_lifecycle_stats [prClosed0h, prClosed2h]) = 2 ∧
    specMeanTimeToClose [prClosed0h, prClosed2h] = 1 ∧ (2 : Rat) ≠ 1 := by
  refine ⟨?_, ?_, by norm_num⟩
  · norm_num [avgCloseOf, calculate_lifecycle_stats, lifecycleRecords, prToLifecycle,
      prClosed0h, prClosed2h, hoursBetween, truthyQ, ts0, ts2h, Timestamp.toSeconds,
      Timestamp.toDayNumber, daysBeforeYear, daysBeforeMonth, isLeap, List.filter]
  · rw [specMeanTimeToClose,
      show [prClosed0h, prClosed2h].filterMap specCloseHours = [0, 2] from by
        norm_num [specCloseHours, prClosed0h, prClosed2h, hoursBetween, ts0, ts2h,
          Timestamp.toSeconds, Timestamp.toDayNumber, daysBeforeYear, daysBeforeMonth,
          isLeap, List.filterMap]]
    norm_num [meanQ]
    exact List.cons_ne_nil _ _

/-- C3 (amended): `avg_time_to_close` (resp. `avg_time_to_merge`) is the
arithmetic mean of the timing values over exactly those records whose
value is nonzero — a record closed or merged at exactly its creation time
is excluded by the truthiness test — and is `0`, with no exception, when
no record qualifies. -/
theorem C3_amended_lifecycle_averages (prs : List PR)
    (h : ∀ pr ∈ prs, pr.created_at.isSome) :
    ∃ s, calculate_lifecycle_stats prs = Except.ok s ∧
      s.avg_time_to_close = meanQ (prs.filterMap nonzeroCloseHours) ∧
      s.avg_time_to_merge = meanQ (prs.filterMap nonzeroMergeHours) := by
  unfold calculate_lifecycle_stats
  rw [lifecycleRecords_eq prs h]
  refine ⟨_, rfl, ?_, ?_⟩
  · dsimp only
    rw [avg_if_eq_meanQ, closed_filter_map prs h]
  · dsimp only
    rw [avg_if_eq_meanQ, merged_filter_map prs h]

theorem C3_amended_lifecycle_averages_witness :
    (∀ pr ∈ [prClosed0h, prClosed2h], pr.created_at.isSome) ∧
    (∃ s, calculate_lifecycle_stats [prClosed0h, prClosed2h] = Except.ok s ∧
      s.avg_time_to_close = meanQ ([prClosed0h, prClosed2h].filterMap nonzeroCloseHours) ∧
      s.avg_time_to_merge = meanQ ([prClosed0h, prClosed2h].filterMap nonzeroMergeHours)) :=
  ⟨by decide, C3_amended_lifecycle_averages _ (by decide)⟩

set_option maxHeartbeats 1600000 in
/-- C2 counterexample: repository `"a"` has one record merged after 10
hours, repository `"b"` has one record and zero merged records.  `"b"`'s
`avg_time_to_merge` is `0`, which is finite, so `"b"` enters the argmin
and wins: `fastest_processing_repo = ("b", 0)`, even though the claim
requires the zero-merge repository to be excluded (which would make
`("a", 10)` the winner). -/
theorem C2_counterexample :
    fastestOf (crossInsightsOf
        (analyze_multiple_repos freshMultiRepoState
          [("a", [prMerged10h]), ("b", [prOpen])]).2) = some ("b", 0) ∧
    mergedPrsOfRepo (analyze_multiple_repos freshMultiRepoState
        [("a", [prMerged10h]), ("b", [prOpen])]).2 "b" = some 0 ∧
    avgMergeOfRepo (analyze_multiple_repos freshMultiRepoState
        [("a", [prMerged10h]), ("b", [prOpen])]).2 "a" = some 10 ∧
    some (("b" : String), (0 : Rat)) ≠ some (("a" : String), (10 : Rat)) := by
  refine ⟨?_, ?_, ?_, by decide⟩ <;>
    norm_num +decide [fastestOf, crossInsightsOf, mergedPrsOfRepo, avgMergeOfRepo,
      analyze_multiple_repos, analyzeReposLoop, analyze_pr_dataS, analyze_pr_data,
      freshMultiRepoState, freshPRState, group_by_month, group_by_month_aux, appendGrouped,
      Timestamp.monthKey, calculate_monthly_stats, monthlyStatOf, calculate_overall_stats,
      bumpAssoc, calculate_trends, sortMonths, dfltRow, pickMaxD, pickMax, pickMin, monthLe,
      rowLe, calculate_contributor_stats, updateContrib, addPR, zeroDetail, sortDescBy,
      keyGe, calculate_lifecycle_stats, lifecycleRecords, prToLifecycle, truthyQ,
      hoursBetween, Timestamp.toSeconds, Timestamp.toDayNumber, daysBeforeYear,
      daysBeforeMonth, isLeap, setAssoc, generate_comparative_analysis, activityOf,
      osTotalPrs, osMergeRate, osAvgComments, osAvgReviewComments, osTotalChanges,
      lcAvgTimeToMerge, lcAvgTimeToMergeFinite, generate_cross_repo_insights,
      quality_score, processing_times, consistencyOf, sampleVarOpt, prMerged10h, prOpen,
      ts0, ts10h, List.insertionSort, List.orderedInsert]

/-- C2 (amended): with at least two repositories,
`fastest_processing_repo` is the first-encountered argmin of
`avg_time_to_merge` over exactly those repositories whose
`lifecycle_stats` carries the `avg_time_to_merge` key: the pool is the
order-preserving subsequence of the repository map with that key — every
repository analyzed from a non-empty record list, including those with
zero merged records, which enter with the value `0`; only a repository
whose record list was empty (placeholder lifecycle dict) is excluded.
The winner is pinned to the earliest minimal pool entry (strictly smaller
in value than every entry before it, no greater than every entry), so on
ties the first-encountered repository wins. -/
theorem C2_amended_fastest_processing (ras : List (String × AnalysisResult))
    (h : 2 ≤ ras.length) :
    ∃ i, generate_cross_repo_insights ras = InsightsOut.insights i ∧
      isFirstMinOn (processing_times ras) i.fastest_processing_repo ∧
      processing_times ras
        = (ras.filter hasAvgKey).map (fun e => (e.1, lcAvgTimeToMerge e.2.lifecycle_stats)) ∧
      procTimesCharacterized ras := by
  unfold generate_cross_repo_insights
  rw [if_neg (by omega)]
  refine ⟨_, rfl, ?_, processing_times_eq ras, fun n q => mem_processing_times ras n q⟩
  dsimp only
  rcases hp : processing_times ras with _ | ⟨x, xs⟩
  · exact Or.inl ⟨rfl, rfl⟩
  · obtain ⟨l1, l2, hsplit, hstrict⟩ := pickMin_first (fun e : String × Rat => e.2) xs x
    exact Or.inr ⟨pickMin (fun e : String × Rat => e.2) x xs, l1, l2, rfl, hsplit,
      fun q hq => pickMin_le (fun e : String × Rat => e.2) x xs q hq, hstrict⟩

theorem C2_amended_fastest_processing_witness :
    2 ≤ exTieRepos.length ∧
    (∃ i, generate_cross_repo_insights exTieRepos = InsightsOut.insights i ∧
      isFirstMinOn (processing_times exTieRepos) i.fastest_processing_repo ∧
      processing_times exTieRepos
        = (exTieRepos.filter hasAvgKey).map
            (fun e => (e.1, lcAvgTimeToMerge e.2.lifecycle_stats)) ∧
      procTimesCharacterized exTieRepos) :=
  ⟨by decide, C2_amended_fastest_processing _ (by decide)⟩

/-- C6: with at least two repositories, `highest_quality_repo` is an
argmax over the repositories of the score
`merge_rate + 10 × (avg_comments + avg_review_comments)`: its name and
value come from an entry of the map scored by exactly that formula, and
every repository's score is bounded by the winning value. -/
theorem C6_highest_quality_formula (ras : List (String × AnalysisResult))
    (h : 2 ≤ ras.length) :
    ∃ i, generate_cross_repo_insights ras = InsightsOut.insights i ∧
      (∃ a, (i.highest_quality_repo.1, a) ∈ ras ∧
        i.highest_quality_repo.2 = qualityScoreSpec a) ∧
      ∀ e ∈ ras, qualityScoreSpec e.2 ≤ i.highest_quality_repo.2 := by
  have hscore : ∀ a : AnalysisResult, quality_score a = qualityScoreSpec a := by
    intro a
    unfold quality_score qualityScoreSpec
    ring
  unfold generate_cross_repo_insights
  rw [if_neg (by omega)]
  rcases ras with _ | ⟨r0, rest⟩
  · simp at h
  · have hmem : pickMaxD (fun e => e.2) ("", 0)
        ((r0 :: rest).map fun e => (e.1, quality_score e.2))
        ∈ (r0 :: rest).map fun e => (e.1, quality_score e.2) := by
      rw [List.map_cons]
      exact pickMax_mem (fun e : String × Rat => e.2) _ _
    have hb : ∀ z ∈ (r0 :: rest).map (fun e => (e.1, quality_score e.2)),
        z.2 ≤ (pickMaxD (fun e => e.2) ("", 0)
          ((r0 :: rest).map fun e => (e.1, quality_score e.2))).2 := by
      rw [List.map_cons]
      exact fun z hz => le_pickMax (fun e : String × Rat => e.2) _ _ z hz
    obtain ⟨e, he, hfe⟩ := List.mem_map.mp hmem
    refine ⟨_, rfl, ?_, ?_⟩
    · refine ⟨e.2, ?_, ?_⟩
      · show ((pickMaxD (fun e => e.2) ("", 0)
            ((r0 :: rest).map fun e => (e.1, quality_score e.2))).1, e.2) ∈ r0 :: rest
        rw [← hfe]
        simpa using he
      · show (pickMaxD (fun e => e.2) ("", 0)
            ((r0 :: rest).map fun e => (e.1, quality_score e.2))).2 = qualityScoreSpec e.2
        rw [← hfe]
        exact hscore e.2
    · intro z hz
      have hzb := hb (z.1, quality_score z.2) (List.mem_map.mpr ⟨z, hz, rfl⟩)
      calc qualityScoreSpec z.2 = quality_score z.2 := (hscore z.2).symm
        _ ≤ _ := hzb

theorem C6_highest_quality_formula_witness :
    2 ≤ ([("x", emptyAnalysisResult), ("y", emptyAnalysisResult)]
        : List (String × AnalysisResult)).length ∧
    (∃ i, generate_cross_repo_insights
        [("x", emptyAnalysisResult), ("y", emptyAnalysisResult)] = InsightsOut.insights i ∧
      (∃ a, (i.highest_quality_repo.1, a)
          ∈ ([("x", emptyAnalysisResult), ("y", emptyAnalysisResult)]
              : List (String × AnalysisResult)) ∧
        i.highest_quality_repo.2 = qualityScoreSpec a) ∧
      ∀ e ∈ ([("x", emptyAnalysisResult), ("y", emptyAnalysisResult)]
          : List (String × AnalysisResult)),
        qualityScoreSpec e.2 ≤ i.highest_quality_repo.2) :=
  ⟨by decide, C6_highest_quality_formula _ (by decide)⟩

/-- C7: for every non-empty record set whose records all carry parseable
creation timestamps, the analysis succeeds and the monthly bucket counts
sum to `OverallStats.total_prs` (each record lands in exactly one month
bucket), which equals the number of records. -/
theorem C7_monthly_counts_sum (prs : List PR) (hne : prs ≠ [])
    (h : ∀ pr ∈ prs, pr.created_at.isSome) :
    ∃ r, analyze_pr_data prs = Except.ok r ∧
      (r.monthly_stats.map fun e => e.2.count).sum = osTotalPrs r.overall_stats ∧
      osTotalPrs r.overall_stats = prs.length := by
  obtain ⟨g, lc, hg, hsum, hlc, heq⟩ := analyze_pr_data_eq prs hne h
  refine ⟨_, heq, ?_, ?_⟩
  · dsimp only
    rw [sum_counts_calculate_monthly_stats, hsum, osTotalPrs_calculate prs hne]
  · dsimp only
    rw [osTotalPrs_calculate prs hne]

theorem C7_monthly_counts_sum_witness :
    ([prOpen, prMerged10h] ≠ []) ∧
    (∀ pr ∈ [prOpen, prMerged10h], pr.created_at.isSome) ∧
    (∃ r, analyze_pr_data [prOpen, prMerged10h] = Except.ok r ∧
      (r.monthly_stats.map fun e => e.2.count).sum = osTotalPrs r.overall_stats ∧
      osTotalPrs r.overall_stats = [prOpen, prMerged10h].length) :=
  ⟨by decide, by decide, C7_monthly_counts_sum _ (by decide) (by decide)⟩

/-- C8: the contributor ranking is the stable descending sort of the
contributors dict by `pr_count`: it is a permutation of the
first-encounter-ordered contributor list, pairwise descending in
`pr_count`, and for every count value the tied entries keep their
first-encountered order; `top_contributors` is exactly the first 10
entries of that ranking. -/
theorem C8_contributor_ranking (prs : List PR) :
    ∃ details,
      (calculate_contributor_stats prs).contributor_details = some details ∧
      ((calculate_contributor_stats prs).top_contributors
        = (sortDescBy (fun e => e.2.pr_count) details).take 10) ∧
      (sortDescBy (fun e => e.2.pr_count) details).Sorted
        (fun x y => y.2.pr_count ≤ x.2.pr_count) ∧
      (sortDescBy (fun e => e.2.pr_count) details).Perm details ∧
      ∀ v : Nat,
        ((sortDescBy (fun e => e.2.pr_count) details).filter
            fun e => decide (e.2.pr_count = v))
          = details.filter fun e => decide (e.2.pr_count = v) := by
  refine ⟨_, rfl, rfl, ?_, ?_, ?_⟩
  · exact sortDescBy_sorted (fun e : String × ContributorDetail => e.2.pr_count) _
  · exact sortDescBy_perm (fun e : String × ContributorDetail => e.2.pr_count) _
  · exact fun v => filter_sortDescBy (fun e : String × ContributorDetail => e.2.pr_count) v _

theorem trend_direction_iffs (s : Rat) (d : String)
    (hd : d = if s > 0 then "increasing" else if s < 0 then "decreasing" else "stable") :
    (d = "increasing" ↔ 0 < s) ∧ (d = "decreasing" ↔ s < 0) ∧ (d = "stable" ↔ s = 0) := by
  subst hd
  rcases lt_trichotomy 0 s with hgt | heq | hlt
  · rw [if_pos hgt]
    exact ⟨⟨fun _ => hgt, fun _ => rfl⟩,
      ⟨fun h => absurd h (by decide), fun h => absurd h (lt_asymm hgt)⟩,
      ⟨fun h => absurd h (by decide), fun h => absurd h (ne_of_gt hgt)⟩⟩
  · have h1 : ¬s > 0 := by rw [← heq]; exact lt_irrefl 0
    have h2 : ¬s < 0 := by rw [← heq]; exact lt_irrefl 0
    rw [if_neg h1, if_neg h2]
    exact ⟨⟨fun h => absurd h (by decide), fun h => absurd h h1⟩,
      ⟨fun h => absurd h (by decide), fun h => absurd h h2⟩,
      ⟨fun _ => heq.symm, fun _ => rfl⟩⟩
  · have h1 : ¬s > 0 := lt_asymm hlt
    rw [if_neg h1, if_pos hlt]
    exact ⟨⟨fun h => absurd h (by decide), fun h => absurd h h1⟩,
      ⟨fun _ => hlt, fun _ => rfl⟩,
      ⟨fun h => absurd h (by decide), fun h => absurd h (ne_of_lt hlt)⟩⟩

/-- C5: with at least two monthly buckets the trend is populated with
`slope = (chronologically last count − chronologically first count) /
number of months` — the buckets are consulted in chronologically sorted
order (`sortMonths` is sorted and a permutation of the input) — and
`direction` is `"increasing"` iff the slope is positive, `"decreasing"`
iff negative, and `"stable"` iff zero; with fewer than two buckets the
degenerate insufficient-data message is returned. -/
theorem C5_trend_slope_direction (ms : List (MonthKey × MonthlyStat)) :
    (ms.length < 2 →
      calculate_trends ms = Trends.message "Insufficient data for trend analysis") ∧
    (2 ≤ ms.length →
      ∃ d, calculate_trends ms = Trends.data d ∧
        (sortMonths ms).Sorted rowLe ∧
        (sortMonths ms).Perm ms ∧
        d.pr_count_trend.slope
          = ((((sortMonths ms).getLastD dfltRow).2.count : Rat)
              - (((sortMonths ms).headD dfltRow).2.count : Rat)) / (ms.length : Rat) ∧
        (d.pr_count_trend.direction = "increasing" ↔ 0 < d.pr_count_trend.slope) ∧
        (d.pr_count_trend.direction = "decreasing" ↔ d.pr_count_trend.slope < 0) ∧
        (d.pr_count_trend.direction = "stable" ↔ d.pr_count_trend.slope = 0)) := by
  constructor
  · intro hlt
    unfold calculate_trends
    rw [if_pos hlt]
  · intro hge
    unfold calculate_trends
    rw [if_neg (by omega)]
    refine ⟨_, rfl, List.sorted_insertionSort rowLe ms, List.perm_insertionSort rowLe ms,
      ?_, ?_, ?_, ?_⟩
    · dsimp only
      rw [show ((sortMonths ms).length : Rat) = (ms.length : Rat) from by
        rw [sortMonths, List.length_insertionSort]]
    · exact (trend_direction_iffs _ _ rfl).1
    · exact (trend_direction_iffs _ _ rfl).2.1
    · exact (trend_direction_iffs _ _ rfl).2.2

theorem C5_trend_slope_direction_witness :
    2 ≤ ([((2025, 2), monthlyStatOf [prOpen, prOpen]), ((2025, 1), monthlyStatOf [prOpen])]
        : List (MonthKey × MonthlyStat)).length ∧
    (∃ d, calculate_trends
        [((2025, 2), monthlyStatOf [prOpen, prOpen]), ((2025, 1), monthlyStatOf [prOpen])]
        = Trends.data d ∧
      (sortMonths [((2025, 2), monthlyStatOf [prOpen, prOpen]),
          ((2025, 1), monthlyStatOf [prOpen])]).Sorted rowLe ∧
      (sortMonths [((2025, 2), monthlyStatOf [prOpen, prOpen]),
          ((2025, 1), monthlyStatOf [prOpen])]).Perm
        [((2025, 2), monthlyStatOf [prOpen, prOpen]), ((2025, 1), monthlyStatOf [prOpen])] ∧
      d.pr_count_trend.slope
        = ((((sortMonths [((2025, 2), monthlyStatOf [prOpen, prOpen]),
                ((2025, 1), monthlyStatOf [prOpen])]).getLastD dfltRow).2.count : Rat)
            - (((sortMonths [((2025, 2), monthlyStatOf [prOpen, prOpen]),
                ((2025, 1), monthlyStatOf [prOpen])]).headD dfltRow).2.count : Rat))
          / (([((2025, 2), monthlyStatOf [prOpen, prOpen]),
              ((2025, 1), monthlyStatOf [prOpen])]
              : List (MonthKey × MonthlyStat)).length : Rat) ∧
      (d.pr_count_trend.direction = "increasing" ↔ 0 < d.pr_count_trend.slope) ∧
      (d.pr_count_trend.direction = "decreasing" ↔ d.pr_count_trend.slope < 0) ∧
      (d.pr_count_trend.direction = "stable" ↔ d.pr_count_trend.slope = 0)) :=
  ⟨by decide, (C5_trend_slope_direction _).2 (by decide)⟩
